import Mathlib

/-!
Shallow embedding of the Revive-Engine durable workflow core
(`src/engine/DurableEngine.tsx`: class `DurableContext`, methods `step` and
`parallel`; `src/App.tsx`: the store upsert `handleStepUpdate`; `src/types.ts`:
`StepStatus`, `StepRecord`).

Modelling conventions:
* `α` is the type of (non-null) step result payloads (TS `any`); a stored
  `result` field is `Option α`, with `none` for TS `null`.
* The interruption flag (`isInterrupted()` in the source, backed by
  `isCrashedRef` in `App.tsx`) is an external time-varying boolean, modelled
  as a function `sig : Nat → Bool` of a logical clock.  The engine samples it
  only at its poll sites, exactly as the source does.  The clock advances by
  a fixed amount at each micro-event of a step so that distinct micro-events
  (first poll, RUNNING write, second poll, invocation of `fn`, terminal
  commit) happen at distinct, ordered times.
* The engine state carries two ghost observation traces that do not influence
  control flow: `assigned` records every `(label, sequence)` allocation made
  by `++this.sequenceCounter`, and `invoked` records the `stepKey` of every
  actual invocation of the user-supplied `fn`.
* An `async` TS function runs synchronously up to its first `await`; `step`'s
  first suspension is `await new Promise(setTimeout ...)`.  `step` is
  therefore split as in the source into `stepPhase1` (allocate sequence,
  memo lookup, first crash check, RUNNING upsert — everything before the
  delay) and `stepPhase2` (second crash check, run `fn`, terminal commit).
  Sequential `step` is their composition; `parallel` over an array literal
  of `ctx.step(...)` calls runs every element's `stepPhase1` in positional
  order first, then the pending `stepPhase2`s in timer (= positional) order,
  mirroring the JavaScript event loop with the equal 1500ms timers.
-/

namespace Revive

/-- Step status enumeration from `src/types.ts`. -/
inductive StepStatus : Type
  | PENDING
  | RUNNING
  | COMPLETED
  | FAILED
deriving DecidableEq, Repr

/-- One row of the simulated RDBMS table, from `src/types.ts` (`StepRecord`).
`result` is `none` for TS `null`; `error` is `none` when the optional TS
field is absent. -/
structure StepRecord (α : Type) : Type where
  workflowId : String
  stepKey : String
  id : String
  sequence : Nat
  status : StepStatus
  result : Option α
  error : Option String
  timestamp : Nat
deriving DecidableEq, Repr

/-- Behaviour of the user-supplied `fn` when it is actually invoked: it either
resolves with a value or rejects with an error carrying a message. -/
inductive Work (α : Type) : Type
  | ok (v : α)
  | err (msg : String)
deriving DecidableEq, Repr

/-- Outcome of one `ctx.step` call as seen by the caller: the returned value
(`existing.result as T` may be null, hence `Option α`), the distinguished
`WORKFLOW_INTERRUPTED` rejection, or an ordinary step failure. -/
inductive StepOutcome (α : Type) : Type
  | ok (v : Option α)
  | interrupted
  | failure (msg : String)
deriving DecidableEq, Repr

/-- Engine state threaded through a single execution pass: the private
`sequenceCounter` of `DurableContext`, the external persistent store as
mutated through `onStepUpdate` (= `handleStepUpdate` in `App.tsx`), the
logical clock, and the two ghost traces described in the file header. -/
structure EngineState (α : Type) : Type where
  sequenceCounter : Nat
  store : List (StepRecord α)
  clock : Nat
  assigned : List (String × Nat)
  invoked : List String
deriving DecidableEq, Repr

/-- The store upsert `handleStepUpdate` from `src/App.tsx`: find the first
record with the same `stepKey` and replace it, else append the record. -/
def handleStepUpdate {α : Type} : List (StepRecord α) → StepRecord α → List (StepRecord α)
  | [], record => [record]
  | r :: rest, record =>
    if r.stepKey = record.stepKey then record :: rest
    else r :: handleStepUpdate rest record

/-- Step key computation from `DurableContext.step`: the template literal
`id ++ "_seq_" ++ sequence`. -/
def mkStepKey (id : String) (sequence : Nat) : String :=
  id ++ "_seq_" ++ toString sequence

/-- Memo lookup from `DurableContext.step`:
`this.db.find(r => r.workflowId === this.workflowId && r.stepKey === stepKey)`. -/
def findExisting {α : Type} (db : List (StepRecord α)) (workflowId stepKey : String) :
    Option (StepRecord α) :=
  db.find? fun r => r.workflowId == workflowId && r.stepKey == stepKey

/-- Whether a memo lookup result short-circuits `step`
(`existing && existing.status === StepStatus.COMPLETED`). -/
def isCompletedHit {α : Type} : Option (StepRecord α) → Bool
  | some e =>
    match e.status with
    | StepStatus.COMPLETED => true
    | _ => false
  | none => false

/-- Result of the synchronous prefix of a `ctx.step` call (everything before
its first `await`): a memoized resolution, a rejection from the first crash
check, or a pending step whose RUNNING record has been upserted and whose
`fn` is still to run. -/
inductive Phase1 (α : Type) : Type
  | memo (v : Option α)
  | interrupted
  | active (runningRecord : StepRecord α) (fn : Work α)
deriving DecidableEq, Repr

/-- Non-memoized prefix of `step`: the first `isInterrupted()` poll and, when
clear, the RUNNING upsert.  Poll at clock `t`, RUNNING timestamp `t + 2`,
exit clock `t + 4` (so the second poll of the same step samples `t + 4`). -/
def stepBegin {α : Type} (wfId : String) (sig : Nat → Bool) (st : EngineState α)
    (id : String) (sequence : Nat) (key : String) (fn : Work α) :
    Phase1 α × EngineState α :=
  if sig st.clock then
    (Phase1.interrupted, { st with clock := st.clock + 1 })
  else
    let runningRecord : StepRecord α :=
      { workflowId := wfId, stepKey := key, id := id, sequence := sequence,
        status := StepStatus.RUNNING, result := none, error := none,
        timestamp := st.clock + 2 }
    (Phase1.active runningRecord fn,
     { st with store := handleStepUpdate st.store runningRecord, clock := st.clock + 4 })

/-- Synchronous prefix of `DurableContext.step`: allocate
`sequence = ++this.sequenceCounter`, build the step key, memo lookup, then
`stepBegin` unless a COMPLETED record short-circuits. -/
def stepPhase1 {α : Type} (wfId : String) (db : List (StepRecord α)) (sig : Nat → Bool)
    (st : EngineState α) (id : String) (fn : Work α) : Phase1 α × EngineState α :=
  let sequence := st.sequenceCounter + 1
  let key := mkStepKey id sequence
  let st1 := { st with sequenceCounter := sequence,
                       assigned := st.assigned ++ [(id, sequence)] }
  match findExisting db wfId key with
  | some existing =>
    if existing.status = StepStatus.COMPLETED then
      (Phase1.memo existing.result, st1)
    else
      stepBegin wfId sig st1 id sequence key fn
  | none => stepBegin wfId sig st1 id sequence key fn

/-- Continuation of `step` after the `setTimeout` delay: the second
`isInterrupted()` poll, the invocation of `fn`, and the terminal commit.
A rejection of `fn` whose message is `WORKFLOW_INTERRUPTED` is re-thrown by
the catch block without a FAILED write; any other rejection commits a FAILED
record whose error field is `error.message || 'Unknown error'`.  Poll at
clock `t`, `fn` invoked at `t + 2`, terminal timestamp `t + 4`. -/
def stepPhase2 {α : Type} (sig : Nat → Bool) (st : EngineState α)
    (runningRecord : StepRecord α) (fn : Work α) : StepOutcome α × EngineState α :=
  if sig st.clock then
    (StepOutcome.interrupted, { st with clock := st.clock + 1 })
  else
    let st1 := { st with clock := st.clock + 2,
                         invoked := st.invoked ++ [runningRecord.stepKey] }
    match fn with
    | Work.ok v =>
      let completedRecord :=
        { runningRecord with status := StepStatus.COMPLETED, result := some v,
                             timestamp := st1.clock + 2 }
      (StepOutcome.ok (some v),
       { st1 with store := handleStepUpdate st1.store completedRecord,
                  clock := st1.clock + 4 })
    | Work.err msg =>
      if msg = "WORKFLOW_INTERRUPTED" then
        (StepOutcome.interrupted, { st1 with clock := st1.clock + 1 })
      else
        let failedRecord :=
          { runningRecord with status := StepStatus.FAILED,
                               error := some (if msg = "" then "Unknown error" else msg),
                               timestamp := st1.clock + 2 }
        (StepOutcome.failure msg,
         { st1 with store := handleStepUpdate st1.store failedRecord,
                    clock := st1.clock + 4 })

/-- A full sequential `await ctx.step(id, fn)`: phase 1 followed immediately
by phase 2 of the same step. -/
def stepExec {α : Type} (wfId : String) (db : List (StepRecord α)) (sig : Nat → Bool)
    (st : EngineState α) (id : String) (fn : Work α) : StepOutcome α × EngineState α :=
  match stepPhase1 wfId db sig st id fn with
  | (Phase1.memo v, st1) => (StepOutcome.ok v, st1)
  | (Phase1.interrupted, st1) => (StepOutcome.interrupted, st1)
  | (Phase1.active runningRecord fn1, st1) => stepPhase2 sig st1 runningRecord fn1

/-- Outcome of one execution pass as observed by `runWorkflow` in
`src/App.tsx`: success with the step results, the `WORKFLOW_INTERRUPTED`
rejection, or a step failure with its message. -/
inductive PassOutcome (α : Type) : Type
  | success (results : List (Option α))
  | interrupted
  | failure (msg : String)
deriving DecidableEq, Repr

/-- A sequential execution pass over a list of `(label, fn)` step calls:
each call is awaited in order, and the first rejection aborts the pass. -/
def runSteps {α : Type} (wfId : String) (db : List (StepRecord α)) (sig : Nat → Bool)
    (st : EngineState α) : List (String × Work α) → PassOutcome α × EngineState α
  | [] => (PassOutcome.success [], st)
  | (label, fn) :: rest =>
    match stepExec wfId db sig st label fn with
    | (StepOutcome.ok v, st1) =>
      match runSteps wfId db sig st1 rest with
      | (PassOutcome.success vs, st2) => (PassOutcome.success (v :: vs), st2)
      | other => other
    | (StepOutcome.interrupted, st1) => (PassOutcome.interrupted, st1)
    | (StepOutcome.failure msg, st1) => (PassOutcome.failure msg, st1)

/-- Fresh engine state at the start of a pass: `sequenceCounter` is rebuilt
at 0 by the `DurableContext` constructor, and the `db` snapshot handed to
the context is the store contents at pass start. -/
def initState {α : Type} (store : List (StepRecord α)) (clock : Nat) : EngineState α :=
  { sequenceCounter := 0, store := store, clock := clock, assigned := [], invoked := [] }

/-- One whole execution pass from a given store: a fresh `DurableContext` is
built over the current store contents (its `db` snapshot and the upsert
target coincide at pass start), then the step list is run. -/
def runPassFrom {α : Type} (wfId : String) (sig : Nat → Bool) (store : List (StepRecord α))
    (clock : Nat) (wf : List (String × Work α)) : PassOutcome α × EngineState α :=
  runSteps wfId store sig (initState store clock) wf

/-- Phase-1 sweep of `ctx.parallel([ctx.step(...), ...])`: the array literal
evaluates its elements in positional order, and each `ctx.step(...)` call
runs synchronously up to its first `await`, so every branch's sequence
allocation, memo lookup, first crash check and RUNNING upsert happen in
input order before any branch's `fn` can run. -/
def parPhase1 {α : Type} (wfId : String) (db : List (StepRecord α)) (sig : Nat → Bool)
    (st : EngineState α) : List (String × Work α) → EngineState α × List (Phase1 α)
  | [] => (st, [])
  | (label, fn) :: rest =>
    match stepPhase1 wfId db sig st label fn with
    | (p, st1) =>
      match parPhase1 wfId db sig st1 rest with
      | (st2, ps) => (st2, p :: ps)

/-- Phase-2 sweep of `parallel`: the equal 1500ms timers fire in registration
(= positional) order, so the pending branches resume, poll the flag, run
their `fn` and commit in input order.  Every pending branch runs to
completion even if an earlier branch already rejected (`Promise.all` does
not cancel the remaining promises). -/
def parPhase2 {α : Type} (sig : Nat → Bool) (st : EngineState α) :
    List (Phase1 α) → EngineState α × List (StepOutcome α)
  | [] => (st, [])
  | Phase1.memo v :: rest =>
    match parPhase2 sig st rest with
    | (st2, os) => (st2, StepOutcome.ok v :: os)
  | Phase1.interrupted :: rest =>
    match parPhase2 sig st rest with
    | (st2, os) => (st2, StepOutcome.interrupted :: os)
  | Phase1.active runningRecord fn :: rest =>
    match stepPhase2 sig st runningRecord fn with
    | (o, st1) =>
      match parPhase2 sig st1 rest with
      | (st2, os) => (st2, o :: os)

/-- Resolution of `Promise.all` over the per-branch outcomes once no branch
rejected during phase 1: resolve positionally, or reject with the first
(in timer order, = positional order) rejection. -/
def collectAll {α : Type} : List (StepOutcome α) → PassOutcome α
  | [] => PassOutcome.success []
  | StepOutcome.ok v :: rest =>
    match collectAll rest with
    | PassOutcome.success vs => PassOutcome.success (v :: vs)
    | other => other
  | StepOutcome.interrupted :: _ => PassOutcome.interrupted
  | StepOutcome.failure msg :: _ => PassOutcome.failure msg

/-- Whether some branch already rejected during the synchronous phase-1
sweep; such a rejection reaches `Promise.all` before any phase-2 rejection,
and it is always the `WORKFLOW_INTERRUPTED` one. -/
def phase1Rejected {α : Type} (ps : List (Phase1 α)) : Bool :=
  ps.any fun p =>
    match p with
    | Phase1.interrupted => true
    | _ => false

/-- `await ctx.parallel([ctx.step(l1, f1), ..., ctx.step(lk, fk)])`:
phase-1 sweep in input order, phase-2 sweep in timer order, then
`Promise.all` collection. -/
def parallelExec {α : Type} (wfId : String) (db : List (StepRecord α)) (sig : Nat → Bool)
    (st : EngineState α) (branches : List (String × Work α)) :
    PassOutcome α × EngineState α :=
  match parPhase1 wfId db sig st branches with
  | (st1, ps) =>
    match parPhase2 sig st1 ps with
    | (st2, os) =>
      (if phase1Rejected ps then PassOutcome.interrupted else collectAll os, st2)

/-- Store contents after `n` successive execution passes of workflow
`wfId`; pass `k` runs the step list `wfs k` under signal `sigs k` starting
at clock `clocks k`. -/
def iterStore {α : Type} (wfId : String) (sigs : Nat → Nat → Bool) (clocks : Nat → Nat)
    (wfs : Nat → List (String × Work α)) (store : List (StepRecord α)) :
    Nat → List (StepRecord α)
  | 0 => store
  | n + 1 =>
    (runPassFrom wfId (sigs n) (iterStore wfId sigs clocks wfs store n)
      (clocks n) (wfs n)).2.store

/-- Value with which `fn` resolves, when it resolves. -/
def workValue {α : Type} : Work α → Option α
  | Work.ok v => some v
  | Work.err _ => none

/-- Outcome a pending branch's phase 2 produces when the flag is clear at
its second poll. -/
def workOutcome {α : Type} : Work α → StepOutcome α
  | Work.ok v => StepOutcome.ok (some v)
  | Work.err msg =>
    if msg = "WORKFLOW_INTERRUPTED" then StepOutcome.interrupted
    else StepOutcome.failure msg

/-- Expected outcome of the branch holding position with sequence number
`k + 1`: the cached result on a COMPLETED memo hit, else the outcome of its
own `fn`. -/
def branchOutcome {α : Type} (wfId : String) (db : List (StepRecord α)) (k : Nat)
    (b : String × Work α) : StepOutcome α :=
  match findExisting db wfId (mkStepKey b.1 (k + 1)) with
  | some e => if e.status = StepStatus.COMPLETED then StepOutcome.ok e.result
              else workOutcome b.2
  | none => workOutcome b.2

/-- Positional list of expected branch outcomes, sequence numbers
`k + 1, k + 2, ...` in input order. -/
def branchOutcomes {α : Type} (wfId : String) (db : List (StepRecord α)) :
    Nat → List (String × Work α) → List (StepOutcome α)
  | _, [] => []
  | k, b :: rest => branchOutcome wfId db k b :: branchOutcomes wfId db (k + 1) rest

/-- Expected resolved value of the branch with sequence number `k + 1`. -/
def branchValue {α : Type} (wfId : String) (db : List (StepRecord α)) (k : Nat)
    (b : String × Work α) : Option α :=
  match findExisting db wfId (mkStepKey b.1 (k + 1)) with
  | some e => if e.status = StepStatus.COMPLETED then e.result else workValue b.2
  | none => workValue b.2

/-- Positional list of expected resolved branch values. -/
def branchValues {α : Type} (wfId : String) (db : List (StepRecord α)) :
    Nat → List (String × Work α) → List (Option α)
  | _, [] => []
  | k, b :: rest => branchValue wfId db k b :: branchValues wfId db (k + 1) rest

/-- Sequence allocations `parallel` performs for its branches, in input
order, continuing from counter value `k`. -/
def parAssigned {α : Type} : Nat → List (String × Work α) → List (String × Nat)
  | _, [] => []
  | k, b :: rest => (b.1, k + 1) :: parAssigned (k + 1) rest

/-- Numeric value of a decimal digit character. -/
def charVal (c : Char) : Nat := c.toNat - 48

/-- Decimal value accumulated by folding digit characters onto `acc`. -/
def foldVal (acc : Nat) (cs : List Char) : Nat :=
  cs.foldl (fun a c => a * 10 + charVal c) acc

/-- Number of decimal digits of `n` (at least 1). -/
def numDigits (n : Nat) : Nat :=
  if n < 10 then 1 else numDigits (n / 10) + 1
decreasing_by exact Nat.div_lt_self (by omega) (by omega)

/-- Outcome a branch's promise eventually settles with, as a function of its
phase-1 result, when the flag stays clear at the phase-2 polls. -/
def phase2Outcome {α : Type} : Phase1 α → StepOutcome α
  | Phase1.memo v => StepOutcome.ok v
  | Phase1.interrupted => StepOutcome.interrupted
  | Phase1.active _ fn => workOutcome fn

/-- Interruption signal that is never asserted. -/
def sigNever : Nat → Bool := fun _ => false

/-- Interruption signal asserted from time `k` on. -/
def sigFrom (k : Nat) : Nat → Bool := fun n => decide (k ≤ n)

/-- Sample COMPLETED record for concrete instantiations. -/
def sampleCompletedA : StepRecord Nat :=
  { workflowId := "W", stepKey := "A_seq_1", id := "A", sequence := 1,
    status := StepStatus.COMPLETED, result := some 7, error := none, timestamp := 0 }

/-- Sample RUNNING record for concrete instantiations. -/
def sampleRunningA : StepRecord Nat :=
  { workflowId := "W", stepKey := "A_seq_1", id := "A", sequence := 1,
    status := StepStatus.RUNNING, result := none, error := none, timestamp := 0 }

end Revive
namespace Revive

variable {α : Type}

lemma stepBegin_state (wfId : String) (sig : Nat → Bool) (st : EngineState α)
    (id : String) (seq : Nat) (key : String) (fn : Work α) :
    (stepBegin wfId sig st id seq key fn).2.sequenceCounter = st.sequenceCounter ∧
    (stepBegin wfId sig st id seq key fn).2.assigned = st.assigned ∧
    (stepBegin wfId sig st id seq key fn).2.invoked = st.invoked := by
  unfold stepBegin
  split <;> exact ⟨rfl, rfl, rfl⟩

lemma stepPhase2_state (sig : Nat → Bool) (st : EngineState α)
    (rec : StepRecord α) (fn : Work α) :
    (stepPhase2 sig st rec fn).2.sequenceCounter = st.sequenceCounter ∧
    (stepPhase2 sig st rec fn).2.assigned = st.assigned := by
  unfold stepPhase2
  split
  · exact ⟨rfl, rfl⟩
  · cases fn with
    | ok v => exact ⟨rfl, rfl⟩
    | err msg =>
      simp only
      split <;> exact ⟨rfl, rfl⟩

lemma stepPhase1_state (wfId : String) (db : List (StepRecord α)) (sig : Nat → Bool)
    (st : EngineState α) (id : String) (fn : Work α) :
    (stepPhase1 wfId db sig st id fn).2.sequenceCounter = st.sequenceCounter + 1 ∧
    (stepPhase1 wfId db sig st id fn).2.assigned
      = st.assigned ++ [(id, st.sequenceCounter + 1)] ∧
    (stepPhase1 wfId db sig st id fn).2.invoked = st.invoked := by
  simp only [stepPhase1]
  split
  · split
    · simp
    · simpa using stepBegin_state wfId sig _ id _ _ fn
  · simpa using stepBegin_state wfId sig _ id _ _ fn

lemma stepExec_state (wfId : String) (db : List (StepRecord α)) (sig : Nat → Bool)
    (st : EngineState α) (id : String) (fn : Work α) :
    (stepExec wfId db sig st id fn).2.sequenceCounter = st.sequenceCounter + 1 ∧
    (stepExec wfId db sig st id fn).2.assigned
      = st.assigned ++ [(id, st.sequenceCounter + 1)] := by
  have h1 := stepPhase1_state wfId db sig st id fn
  unfold stepExec
  rcases hp : stepPhase1 wfId db sig st id fn with ⟨p, st1⟩
  rw [hp] at h1
  cases p with
  | memo v => exact ⟨h1.1, h1.2.1⟩
  | interrupted => exact ⟨h1.1, h1.2.1⟩
  | active rec fn1 =>
    have h2 := stepPhase2_state sig st1 rec fn1
    exact ⟨h2.1.trans h1.1, h2.2.trans h1.2.1⟩

end Revive
namespace Revive

variable {α : Type}

lemma findExisting_cons {a : StepRecord α} {s : List (StepRecord α)} {wfId key : String} :
    findExisting (a :: s) wfId key =
      if a.workflowId = wfId ∧ a.stepKey = key then some a
      else findExisting s wfId key := by
  simp only [findExisting, List.find?]
  by_cases h1 : a.workflowId = wfId <;> by_cases h2 : a.stepKey = key
  · have b1 : (a.workflowId == wfId) = true := beq_iff_eq.mpr h1
    have b2 : (a.stepKey == key) = true := beq_iff_eq.mpr h2
    simp [b1, b2, h1, h2, findExisting]
  · have b2 : (a.stepKey == key) = false := beq_eq_false_iff_ne.mpr h2
    simp [b2, h2, findExisting]
  · have b1 : (a.workflowId == wfId) = false := beq_eq_false_iff_ne.mpr h1
    simp [b1, h1, findExisting]
  · have b1 : (a.workflowId == wfId) = false := beq_eq_false_iff_ne.mpr h1
    simp [b1, h1, findExisting]

lemma findExisting_handleStepUpdate_self {s : List (StepRecord α)} {rec : StepRecord α}
    {wfId : String} (h : rec.workflowId = wfId) :
    findExisting (handleStepUpdate s rec) wfId rec.stepKey = some rec := by
  induction s with
  | nil => simp [handleStepUpdate, findExisting_cons, h]
  | cons a rest ih =>
    simp only [handleStepUpdate]
    split
    · simp [findExisting_cons, h]
    · rename_i hne
      rw [findExisting_cons, if_neg (fun hh => hne hh.2), ih]

lemma findExisting_handleStepUpdate_other {s : List (StepRecord α)} {r : StepRecord α}
    {wfId key : String} (hne : r.stepKey ≠ key) :
    findExisting (handleStepUpdate s r) wfId key = findExisting s wfId key := by
  induction s with
  | nil =>
    simp only [handleStepUpdate]
    rw [findExisting_cons, if_neg (fun hh => hne hh.2)]
  | cons a rest ih =>
    simp only [handleStepUpdate]
    split
    · rename_i heq
      rw [findExisting_cons, findExisting_cons,
        if_neg (fun hh => hne hh.2), if_neg (fun hh => hne (heq ▸ hh.2))]
    · rw [findExisting_cons, findExisting_cons, ih]

lemma mem_handleStepUpdate {s : List (StepRecord α)} {r x : StepRecord α}
    (h : x ∈ handleStepUpdate s r) : x ∈ s ∨ x = r := by
  induction s with
  | nil => simpa [handleStepUpdate] using h
  | cons a rest ih =>
    simp only [handleStepUpdate] at h
    split at h
    · rcases List.mem_cons.1 h with h1 | h1
      · right; exact h1
      · left; exact List.mem_cons_of_mem _ h1
    · rcases List.mem_cons.1 h with h1 | h1
      · left; rw [h1]; exact List.mem_cons_self _ _
      · rcases ih h1 with h2 | h2
        · left; exact List.mem_cons_of_mem _ h2
        · right; exact h2

lemma isCompletedHit_false {e : StepRecord α} (h : ¬ e.status = StepStatus.COMPLETED) :
    isCompletedHit (some e) = false := by
  cases hs : e.status
  case COMPLETED => exact absurd hs h
  all_goals simp [isCompletedHit, hs]

end Revive
namespace Revive

variable {α : Type}

lemma stepPhase2_invoked (sig : Nat → Bool) (st : EngineState α)
    (rec : StepRecord α) (fn : Work α) :
    (stepPhase2 sig st rec fn).2.invoked = st.invoked ∧
      (stepPhase2 sig st rec fn).1 = StepOutcome.interrupted ∨
    (stepPhase2 sig st rec fn).2.invoked = st.invoked ++ [rec.stepKey] := by
  unfold stepPhase2
  split
  · exact Or.inl ⟨rfl, rfl⟩
  · cases fn with
    | ok v => exact Or.inr rfl
    | err msg =>
      simp only
      split
      · exact Or.inr rfl
      · exact Or.inr rfl

lemma stepPhase2_store (sig : Nat → Bool) (st : EngineState α)
    (rec : StepRecord α) (fn : Work α) :
    (stepPhase2 sig st rec fn).2.store = st.store ∨
    ∃ r2 : StepRecord α, (stepPhase2 sig st rec fn).2.store = handleStepUpdate st.store r2 ∧
      r2.stepKey = rec.stepKey ∧ r2.workflowId = rec.workflowId ∧
      (r2.status = StepStatus.COMPLETED ∨ r2.status = StepStatus.FAILED) := by
  unfold stepPhase2
  split
  · exact Or.inl rfl
  · cases fn with
    | ok v => exact Or.inr ⟨_, rfl, rfl, rfl, Or.inl rfl⟩
    | err msg =>
      simp only
      split
      · exact Or.inl rfl
      · exact Or.inr ⟨_, rfl, rfl, rfl, Or.inr rfl⟩

lemma stepPhase1_cases (wfId : String) (db : List (StepRecord α)) (sig : Nat → Bool)
    (st : EngineState α) (id : String) (fn : Work α) :
    (∃ e, findExisting db wfId (mkStepKey id (st.sequenceCounter + 1)) = some e ∧
        e.status = StepStatus.COMPLETED ∧
        (stepPhase1 wfId db sig st id fn).1 = Phase1.memo e.result ∧
        (stepPhase1 wfId db sig st id fn).2.store = st.store) ∨
    (isCompletedHit (findExisting db wfId (mkStepKey id (st.sequenceCounter + 1))) = false ∧
      ((stepPhase1 wfId db sig st id fn).1 = Phase1.interrupted ∧
          (stepPhase1 wfId db sig st id fn).2.store = st.store ∨
       ∃ rec, (stepPhase1 wfId db sig st id fn).1 = Phase1.active rec fn ∧
          rec.stepKey = mkStepKey id (st.sequenceCounter + 1) ∧ rec.workflowId = wfId ∧
          rec.status = StepStatus.RUNNING ∧ rec.id = id ∧
          rec.sequence = st.sequenceCounter + 1 ∧
          (stepPhase1 wfId db sig st id fn).2.store = handleStepUpdate st.store rec)) := by
  simp only [stepPhase1]
  split
  · rename_i e heq
    split
    · rename_i hc
      exact Or.inl ⟨e, heq, hc, rfl, rfl⟩
    · rename_i hc
      rw [heq]
      refine Or.inr ⟨isCompletedHit_false hc, ?_⟩
      unfold stepBegin
      split
      · exact Or.inl ⟨rfl, rfl⟩
      · exact Or.inr ⟨_, rfl, rfl, rfl, rfl, rfl, rfl, rfl⟩
  · rename_i heq
    rw [heq]
    refine Or.inr ⟨rfl, ?_⟩
    unfold stepBegin
    split
    · exact Or.inl ⟨rfl, rfl⟩
    · exact Or.inr ⟨_, rfl, rfl, rfl, rfl, rfl, rfl, rfl⟩

end Revive
namespace Revive

variable {α : Type}

lemma stepExec_memo {db : List (StepRecord α)} {wfId id : String} {st : EngineState α}
    {e : StepRecord α} (sig : Nat → Bool) (fn : Work α)
    (h : findExisting db wfId (mkStepKey id (st.sequenceCounter + 1)) = some e)
    (hc : e.status = StepStatus.COMPLETED) :
    stepExec wfId db sig st id fn =
      (StepOutcome.ok e.result,
       { st with sequenceCounter := st.sequenceCounter + 1,
                 assigned := st.assigned ++ [(id, st.sequenceCounter + 1)] }) := by
  unfold stepExec
  simp only [stepPhase1, h, if_pos hc]

lemma stepExec_store (wfId : String) (db : List (StepRecord α)) (sig : Nat → Bool)
    (st : EngineState α) (id : String) (fn : Work α) :
    (stepExec wfId db sig st id fn).2.store = st.store ∨
    (isCompletedHit (findExisting db wfId (mkStepKey id (st.sequenceCounter + 1))) = false ∧
     ∃ r1, r1.stepKey = mkStepKey id (st.sequenceCounter + 1) ∧ r1.workflowId = wfId ∧
        r1.status = StepStatus.RUNNING ∧
        ((stepExec wfId db sig st id fn).2.store = handleStepUpdate st.store r1 ∨
         ∃ r2, r2.stepKey = mkStepKey id (st.sequenceCounter + 1) ∧ r2.workflowId = wfId ∧
            (r2.status = StepStatus.COMPLETED ∨ r2.status = StepStatus.FAILED) ∧
            (stepExec wfId db sig st id fn).2.store
              = handleStepUpdate (handleStepUpdate st.store r1) r2)) := by
  unfold stepExec
  rcases hp : stepPhase1 wfId db sig st id fn with ⟨p, st1⟩
  have hcases := stepPhase1_cases wfId db sig st id fn
  rw [hp] at hcases
  rcases hcases with ⟨e, _, _, hmemo, hst⟩ | ⟨hhit, hint | ⟨rec, hact, hkey, hwf, hstat, _, _, hst⟩⟩
  · simp only at hmemo hst
    rw [hmemo]
    exact Or.inl hst
  · simp only at hint
    rw [hint.1]
    exact Or.inl hint.2
  · simp only at hact hst
    rw [hact]
    rcases stepPhase2_store sig st1 rec fn with h2 | ⟨r2, h2st, h2key, h2wf, h2stat⟩
    · exact Or.inr ⟨hhit, rec, hkey, hwf, hstat, Or.inl (h2.trans hst)⟩
    · refine Or.inr ⟨hhit, rec, hkey, hwf, hstat, Or.inr ⟨r2, h2key.trans hkey,
        h2wf.trans hwf, h2stat, ?_⟩⟩
      rw [h2st, hst]

lemma stepExec_invoked (wfId : String) (db : List (StepRecord α)) (sig : Nat → Bool)
    (st : EngineState α) (id : String) (fn : Work α) :
    (stepExec wfId db sig st id fn).2.invoked = st.invoked ∨
    ((stepExec wfId db sig st id fn).2.invoked
        = st.invoked ++ [mkStepKey id (st.sequenceCounter + 1)] ∧
     isCompletedHit (findExisting db wfId (mkStepKey id (st.sequenceCounter + 1))) = false) := by
  have hinv1 := (stepPhase1_state wfId db sig st id fn).2.2
  unfold stepExec
  rcases hp : stepPhase1 wfId db sig st id fn with ⟨p, st1⟩
  rw [hp] at hinv1
  have hcases := stepPhase1_cases wfId db sig st id fn
  rw [hp] at hcases
  rcases hcases with ⟨e, _, _, hmemo, _⟩ | ⟨hhit, hint | ⟨rec, hact, hkey, _, _, _, _, hst⟩⟩
  · simp only at hmemo
    rw [hmemo]
    exact Or.inl hinv1
  · simp only at hint
    rw [hint.1]
    exact Or.inl hinv1
  · simp only at hact
    rw [hact]
    rcases stepPhase2_invoked sig st1 rec fn with ⟨h2, _⟩ | h2
    · exact Or.inl (h2.trans hinv1)
    · right
      refine ⟨?_, hhit⟩
      rw [h2, hinv1, hkey]

end Revive
namespace Revive

variable {α : Type}

lemma isCompletedHit_true {e : StepRecord α} (hc : e.status = StepStatus.COMPLETED) :
    isCompletedHit (some e) = true := by
  simp [isCompletedHit, hc]

lemma stepExec_preserves_completed {db : List (StepRecord α)} {wfId key : String}
    {e : StepRecord α} (sig : Nat → Bool) (st : EngineState α) (id : String) (fn : Work α)
    (h : findExisting db wfId key = some e) (hc : e.status = StepStatus.COMPLETED) :
    findExisting (stepExec wfId db sig st id fn).2.store wfId key
      = findExisting st.store wfId key ∧
    (key ∉ st.invoked → key ∉ (stepExec wfId db sig st id fn).2.invoked) := by
  by_cases hk : mkStepKey id (st.sequenceCounter + 1) = key
  · rw [stepExec_memo sig fn (hk ▸ h) hc]
    exact ⟨rfl, fun hni => hni⟩
  · constructor
    · rcases stepExec_store wfId db sig st id fn with hst | ⟨_, r1, hr1key, _, _, hst | ⟨r2, hr2key, _, _, hst⟩⟩
      · rw [hst]
      · rw [hst, findExisting_handleStepUpdate_other (hr1key ▸ hk)]
      · rw [hst, findExisting_handleStepUpdate_other (hr2key ▸ hk),
          findExisting_handleStepUpdate_other (hr1key ▸ hk)]
    · intro hni
      rcases stepExec_invoked wfId db sig st id fn with hinv | ⟨hinv, _⟩
      · rw [hinv]; exact hni
      · rw [hinv]
        intro hmem
        rcases List.mem_append.1 hmem with hmem | hmem
        · exact hni hmem
        · exact hk (List.mem_singleton.1 hmem).symm

lemma runSteps_preserves_completed {db : List (StepRecord α)} {wfId key : String}
    {e : StepRecord α} (sig : Nat → Bool)
    (h : findExisting db wfId key = some e) (hc : e.status = StepStatus.COMPLETED) :
    ∀ (wf : List (String × Work α)) (st : EngineState α),
      findExisting (runSteps wfId db sig st wf).2.store wfId key
        = findExisting st.store wfId key ∧
      (key ∉ st.invoked → key ∉ (runSteps wfId db sig st wf).2.invoked) := by
  intro wf
  induction wf with
  | nil => exact fun st => ⟨rfl, fun hni => hni⟩
  | cons b rest ih =>
    intro st
    rcases b with ⟨label, fn⟩
    have hstep := stepExec_preserves_completed sig st label fn h hc
    simp only [runSteps]
    rcases hs : stepExec wfId db sig st label fn with ⟨o, st1⟩
    rw [hs] at hstep
    cases o with
    | ok v =>
      dsimp only
      have hrest := ih st1
      rcases hr : runSteps wfId db sig st1 rest with ⟨po, st2⟩
      rw [hr] at hrest
      cases po with
      | success vs => exact ⟨hrest.1.trans hstep.1, fun hni => hrest.2 (hstep.2 hni)⟩
      | interrupted => exact ⟨hrest.1.trans hstep.1, fun hni => hrest.2 (hstep.2 hni)⟩
      | failure msg => exact ⟨hrest.1.trans hstep.1, fun hni => hrest.2 (hstep.2 hni)⟩
    | interrupted => exact hstep
    | failure msg => exact hstep

end Revive
namespace Revive
variable {α : Type}
lemma stepExec_store_status (wfId : String) (db : List (StepRecord α)) (sig : Nat → Bool)
    (st : EngineState α) (id : String) (fn : Work α) {rec : StepRecord α}
    (h : rec ∈ (stepExec wfId db sig st id fn).2.store) :
    rec ∈ st.store ∨ rec.status ≠ StepStatus.PENDING := by
  rcases stepExec_store wfId db sig st id fn with hst | ⟨_, r1, _, _, hr1stat, hst | ⟨r2, _, _, hr2stat, hst⟩⟩
  · rw [hst] at h; exact Or.inl h
  · rw [hst] at h
    rcases mem_handleStepUpdate h with h1 | h1
    · exact Or.inl h1
    · right; rw [h1, hr1stat]; intro hco; cases hco
  · rw [hst] at h
    rcases mem_handleStepUpdate h with h1 | h1
    · rcases mem_handleStepUpdate h1 with h2 | h2
      · exact Or.inl h2
      · right; rw [h2, hr1stat]; intro hco; cases hco
    · right
      rw [h1]
      rcases hr2stat with h2 | h2
      · rw [h2]; intro hco; cases hco
      · rw [h2]; intro hco; cases hco

lemma runSteps_store_status (wfId : String) (db : List (StepRecord α)) (sig : Nat → Bool) :
    ∀ (wf : List (String × Work α)) (st : EngineState α) (rec : StepRecord α),
      rec ∈ (runSteps wfId db sig st wf).2.store →
      rec ∈ st.store ∨ rec.status ≠ StepStatus.PENDING := by
  intro wf
  induction wf with
  | nil => exact fun st rec h => Or.inl h
  | cons b rest ih =>
    intro st rec h
    rcases b with ⟨label, fn⟩
    simp only [runSteps] at h
    rcases hs : stepExec wfId db sig st label fn with ⟨o, st1⟩
    rw [hs] at h
    cases o with
    | ok v =>
      dsimp only at h
      rcases hr : runSteps wfId db sig st1 rest with ⟨po, st2⟩
      rw [hr] at h
      have hmem : rec ∈ st2.store := by
        cases po with
        | success vs => exact h
        | interrupted => exact h
        | failure msg => exact h
      have h1 : rec ∈ st1.store ∨ rec.status ≠ StepStatus.PENDING := by
        have := ih st1 rec
        rw [hr] at this
        exact this hmem
      rcases h1 with h1 | h1
      · refine stepExec_store_status wfId db sig st label fn ?_
        rw [hs]
        exact h1
      · exact Or.inr h1
    | interrupted =>
      refine stepExec_store_status wfId db sig st label fn ?_
      rw [hs]
      exact h
    | failure msg =>
      refine stepExec_store_status wfId db sig st label fn ?_
      rw [hs]
      exact h
end Revive
namespace Revive
variable {α : Type}

lemma runSteps_assigned (wfId : String) (db : List (StepRecord α)) (sig : Nat → Bool) :
    ∀ (wf : List (String × Work α)) (st : EngineState α),
      ∃ pre : List (String × Nat),
        (runSteps wfId db sig st wf).2.assigned = st.assigned ++ pre ∧
        pre.map Prod.snd = List.range' (st.sequenceCounter + 1) pre.length ∧
        pre.map Prod.fst = (wf.map Prod.fst).take pre.length ∧
        (runSteps wfId db sig st wf).2.sequenceCounter
          = st.sequenceCounter + pre.length := by
  intro wf
  induction wf with
  | nil =>
    intro st
    exact ⟨[], by simp [runSteps]⟩
  | cons b rest ih =>
    intro st
    rcases b with ⟨label, fn⟩
    have hstate := stepExec_state wfId db sig st label fn
    simp only [runSteps]
    rcases hs : stepExec wfId db sig st label fn with ⟨o, st1⟩
    rw [hs] at hstate
    cases o with
    | ok v =>
      dsimp only
      rcases hr : runSteps wfId db sig st1 rest with ⟨po, st2⟩
      have hrest := ih st1
      rw [hr] at hrest
      rcases hrest with ⟨pre1, ha1, hsnd1, hfst1, hc1⟩
      refine ⟨(label, st.sequenceCounter + 1) :: pre1, ?_⟩
      have hgoal : st2.assigned = st.assigned ++ ((label, st.sequenceCounter + 1) :: pre1) ∧
          ((label, st.sequenceCounter + 1) :: pre1).map Prod.snd
            = List.range' (st.sequenceCounter + 1)
                (((label, st.sequenceCounter + 1) :: pre1).length) ∧
          ((label, st.sequenceCounter + 1) :: pre1).map Prod.fst
            = (((label, fn) :: rest).map Prod.fst).take
                (((label, st.sequenceCounter + 1) :: pre1).length) ∧
          st2.sequenceCounter
            = st.sequenceCounter + ((label, st.sequenceCounter + 1) :: pre1).length := by
        refine ⟨?_, ?_, ?_, ?_⟩
        · rw [ha1, hstate.2]
          simp
        · simp only [List.map_cons, List.length_cons, List.range'_succ]
          rw [hsnd1, hstate.1]
        · simp only [List.map_cons, List.length_cons, List.take_succ_cons]
          rw [hfst1]
        · rw [hc1, hstate.1]
          simp only [List.length_cons]
          omega
      cases po with
      | success vs => exact hgoal
      | interrupted => exact hgoal
      | failure msg => exact hgoal
    | interrupted =>
      refine ⟨[(label, st.sequenceCounter + 1)], hstate.2, by simp [List.range'], by simp, ?_⟩
      rw [hstate.1]
      simp
    | failure msg =>
      refine ⟨[(label, st.sequenceCounter + 1)], hstate.2, by simp [List.range'], by simp, ?_⟩
      rw [hstate.1]
      simp
end Revive
namespace Revive
variable {α : Type}

lemma stepPhase1_not_interrupted {sig : Nat → Bool} (hsig : ∀ n, sig n = false)
    (wfId : String) (db : List (StepRecord α)) (st : EngineState α)
    (id : String) (fn : Work α) :
    (stepPhase1 wfId db sig st id fn).1 ≠ Phase1.interrupted := by
  simp only [stepPhase1]
  split
  · split
    · intro h; cases h
    · simp [stepBegin, hsig]
  · simp [stepBegin, hsig]

lemma stepPhase2_outcome_nosig {sig : Nat → Bool} (hsig : ∀ n, sig n = false)
    (st : EngineState α) (rec : StepRecord α) (fn : Work α) :
    (stepPhase2 sig st rec fn).1 = workOutcome fn := by
  simp only [stepPhase2, hsig, Bool.false_eq_true, if_false]
  cases fn with
  | ok v => rfl
  | err msg =>
    simp only [workOutcome]
    split <;> rfl

lemma branchOutcome_not_hit {wfId : String} {db : List (StepRecord α)} {k : Nat}
    {b : String × Work α}
    (h : isCompletedHit (findExisting db wfId (mkStepKey b.1 (k + 1))) = false) :
    branchOutcome wfId db k b = workOutcome b.2 := by
  unfold branchOutcome
  cases hf : findExisting db wfId (mkStepKey b.1 (k + 1)) with
  | none => rfl
  | some e =>
    rw [hf] at h
    dsimp only
    by_cases hc : e.status = StepStatus.COMPLETED
    · rw [isCompletedHit_true hc] at h
      cases h
    · rw [if_neg hc]

lemma parPhase1_state (wfId : String) (db : List (StepRecord α)) (sig : Nat → Bool) :
    ∀ (branches : List (String × Work α)) (st : EngineState α),
      (parPhase1 wfId db sig st branches).1.assigned
        = st.assigned ++ parAssigned st.sequenceCounter branches ∧
      (parPhase1 wfId db sig st branches).1.invoked = st.invoked ∧
      (parPhase1 wfId db sig st branches).1.sequenceCounter
        = st.sequenceCounter + branches.length := by
  intro branches
  induction branches with
  | nil => intro st; simp [parPhase1, parAssigned]
  | cons b rest ih =>
    intro st
    rcases b with ⟨label, fn⟩
    have h1 := stepPhase1_state wfId db sig st label fn
    simp only [parPhase1]
    rcases hp : stepPhase1 wfId db sig st label fn with ⟨p, st1⟩
    rw [hp] at h1
    dsimp only
    rcases hr : parPhase1 wfId db sig st1 rest with ⟨st2, ps⟩
    have h2 := ih st1
    rw [hr] at h2
    dsimp only at h2 ⊢
    refine ⟨?_, ?_, ?_⟩
    · rw [h2.1, h1.2.1, h1.1]
      simp [parAssigned]
    · rw [h2.2.1, h1.2.2]
    · rw [h2.2.2, h1.1]
      simp only [List.length_cons]
      omega

lemma parPhase2_assigned (sig : Nat → Bool) :
    ∀ (ps : List (Phase1 α)) (st : EngineState α),
      (parPhase2 sig st ps).1.assigned = st.assigned ∧
      (parPhase2 sig st ps).1.sequenceCounter = st.sequenceCounter := by
  intro ps
  induction ps with
  | nil => intro st; exact ⟨rfl, rfl⟩
  | cons p rest ih =>
    intro st
    cases p with
    | memo v =>
      simp only [parPhase2]
      rcases hr : parPhase2 sig st rest with ⟨st2, os⟩
      have h2 := ih st
      rw [hr] at h2
      exact h2
    | interrupted =>
      simp only [parPhase2]
      rcases hr : parPhase2 sig st rest with ⟨st2, os⟩
      have h2 := ih st
      rw [hr] at h2
      exact h2
    | active rec fn =>
      simp only [parPhase2]
      rcases h1 : stepPhase2 sig st rec fn with ⟨o, st1⟩
      have hst1 := stepPhase2_state sig st rec fn
      rw [h1] at hst1
      dsimp only
      rcases hr : parPhase2 sig st1 rest with ⟨st2, os⟩
      have h2 := ih st1
      rw [hr] at h2
      exact ⟨h2.1.trans hst1.2, h2.2.trans hst1.1⟩

end Revive
namespace Revive
variable {α : Type}

lemma parPhase2_outcomes {sig : Nat → Bool} (hsig : ∀ n, sig n = false) :
    ∀ (ps : List (Phase1 α)) (st : EngineState α),
      (parPhase2 sig st ps).2 = ps.map phase2Outcome := by
  intro ps
  induction ps with
  | nil => intro st; rfl
  | cons p rest ih =>
    intro st
    cases p with
    | memo v =>
      simp only [parPhase2, List.map_cons]
      rcases hr : parPhase2 sig st rest with ⟨st2, os⟩
      have h2 := ih st
      rw [hr] at h2
      dsimp only at h2 ⊢
      rw [h2]
      rfl
    | interrupted =>
      simp only [parPhase2, List.map_cons]
      rcases hr : parPhase2 sig st rest with ⟨st2, os⟩
      have h2 := ih st
      rw [hr] at h2
      dsimp only at h2 ⊢
      rw [h2]
      rfl
    | active rec fn =>
      simp only [parPhase2, List.map_cons]
      rcases h1 : stepPhase2 sig st rec fn with ⟨o, st1⟩
      have ho := stepPhase2_outcome_nosig hsig st rec fn
      rw [h1] at ho
      dsimp only at ho ⊢
      rcases hr : parPhase2 sig st1 rest with ⟨st2, os⟩
      have h2 := ih st1
      rw [hr] at h2
      dsimp only at h2 ⊢
      rw [h2, ho]
      rfl

lemma parPhase1_outcomes {sig : Nat → Bool} (hsig : ∀ n, sig n = false)
    (wfId : String) (db : List (StepRecord α)) :
    ∀ (branches : List (String × Work α)) (st : EngineState α),
      ((parPhase1 wfId db sig st branches).2).map phase2Outcome
        = branchOutcomes wfId db st.sequenceCounter branches := by
  intro branches
  induction branches with
  | nil => intro st; rfl
  | cons b rest ih =>
    intro st
    rcases b with ⟨label, fn⟩
    have hcnt := (stepPhase1_state wfId db sig st label fn).1
    have hcases := stepPhase1_cases wfId db sig st label fn
    simp only [parPhase1]
    rcases hp : stepPhase1 wfId db sig st label fn with ⟨p, st1⟩
    rw [hp] at hcnt hcases
    dsimp only at hcnt
    dsimp only
    rcases hr : parPhase1 wfId db sig st1 rest with ⟨st2, ps⟩
    have h2 := ih st1
    rw [hr] at h2
    dsimp only at h2 ⊢
    rw [List.map_cons, h2, hcnt]
    simp only [branchOutcomes]
    congr 1
    rcases hcases with ⟨e, hf, hc, hmemo, _⟩ | ⟨hhit, hint | ⟨rec, hact, _⟩⟩
    · dsimp only at hmemo
      rw [hmemo]
      simp only [phase2Outcome, branchOutcome, hf, if_pos hc]
    · dsimp only at hint
      exact absurd hint.1 (by
        have := stepPhase1_not_interrupted hsig wfId db st label fn
        rw [hp] at this
        exact this)
    · dsimp only at hact
      rw [hact]
      simp only [phase2Outcome]
      exact (@branchOutcome_not_hit α wfId db st.sequenceCounter (label, fn) hhit).symm

lemma phase1Rejected_false {sig : Nat → Bool} (hsig : ∀ n, sig n = false)
    (wfId : String) (db : List (StepRecord α)) :
    ∀ (branches : List (String × Work α)) (st : EngineState α),
      phase1Rejected (parPhase1 wfId db sig st branches).2 = false := by
  intro branches
  induction branches with
  | nil => intro st; rfl
  | cons b rest ih =>
    intro st
    rcases b with ⟨label, fn⟩
    simp only [parPhase1]
    rcases hp : stepPhase1 wfId db sig st label fn with ⟨p, st1⟩
    dsimp only
    rcases hr : parPhase1 wfId db sig st1 rest with ⟨st2, ps⟩
    have h2 := ih st1
    rw [hr] at h2
    dsimp only at h2 ⊢
    have hnp : p ≠ Phase1.interrupted := by
      have := stepPhase1_not_interrupted hsig wfId db st label fn
      rw [hp] at this
      exact this
    simp only [phase1Rejected, List.any_cons] at h2 ⊢
    rw [h2]
    cases p with
    | memo v => rfl
    | interrupted => exact absurd rfl hnp
    | active rec fn1 => rfl

lemma branchOutcomes_all_ok (wfId : String) (db : List (StepRecord α)) :
    ∀ (branches : List (String × Work α)) (k : Nat),
      (∀ b ∈ branches, ∃ v, b.2 = Work.ok v) →
      branchOutcomes wfId db k branches
        = (branchValues wfId db k branches).map StepOutcome.ok := by
  intro branches
  induction branches with
  | nil => intro k _; rfl
  | cons b rest ih =>
    intro k hok
    simp only [branchOutcomes, branchValues, List.map_cons]
    congr 1
    · rcases hok b (List.mem_cons_self _ _) with ⟨v, hv⟩
      unfold branchOutcome branchValue
      cases hf : findExisting db wfId (mkStepKey b.1 (k + 1)) with
      | none => rw [hv]; rfl
      | some e =>
        dsimp only
        by_cases hc : e.status = StepStatus.COMPLETED
        · rw [if_pos hc, if_pos hc]
        · rw [if_neg hc, if_neg hc, hv]
          rfl
    · exact ih (k + 1) fun b hb => hok b (List.mem_cons_of_mem _ hb)

lemma collectAll_map_ok : ∀ vs : List (Option α),
    collectAll (vs.map StepOutcome.ok) = PassOutcome.success vs := by
  intro vs
  induction vs with
  | nil => rfl
  | cons v rest ih =>
    simp only [List.map_cons, collectAll, ih]

end Revive
namespace Revive
variable {α : Type}

lemma not_completed_of_hit_false {e : StepRecord α}
    (h : isCompletedHit (some e) = false) : ¬ e.status = StepStatus.COMPLETED := by
  intro hc
  rw [isCompletedHit_true hc] at h
  cases h

lemma stepPhase1_run {wfId : String} {db : List (StepRecord α)} {sig : Nat → Bool}
    {st : EngineState α} {id : String} (fn : Work α)
    (hmem : isCompletedHit
      (findExisting db wfId (mkStepKey id (st.sequenceCounter + 1))) = false)
    (h1 : sig st.clock = false) :
    stepPhase1 wfId db sig st id fn =
      (Phase1.active
        { workflowId := wfId, stepKey := mkStepKey id (st.sequenceCounter + 1),
          id := id, sequence := st.sequenceCounter + 1,
          status := StepStatus.RUNNING, result := none, error := none,
          timestamp := st.clock + 2 } fn,
       { st with sequenceCounter := st.sequenceCounter + 1,
                 assigned := st.assigned ++ [(id, st.sequenceCounter + 1)],
                 store := handleStepUpdate st.store
                   { workflowId := wfId, stepKey := mkStepKey id (st.sequenceCounter + 1),
                     id := id, sequence := st.sequenceCounter + 1,
                     status := StepStatus.RUNNING, result := none, error := none,
                     timestamp := st.clock + 2 },
                 clock := st.clock + 4 }) := by
  simp only [stepPhase1]
  cases hf : findExisting db wfId (mkStepKey id (st.sequenceCounter + 1)) with
  | none =>
    dsimp only
    rw [stepBegin, if_neg (by rw [h1]; exact Bool.false_ne_true)]
  | some e =>
    rw [hf] at hmem
    dsimp only
    rw [if_neg (not_completed_of_hit_false hmem),
      stepBegin, if_neg (by rw [h1]; exact Bool.false_ne_true)]

lemma stepPhase2_ok {sig : Nat → Bool} {st : EngineState α} (r : StepRecord α) (v : α)
    (h : sig st.clock = false) :
    stepPhase2 sig st r (Work.ok v) =
      (StepOutcome.ok (some v),
       { st with clock := st.clock + 2 + 4,
                 invoked := st.invoked ++ [r.stepKey],
                 store := handleStepUpdate st.store
                   { r with status := StepStatus.COMPLETED, result := some v,
                            timestamp := st.clock + 2 + 2 } }) := by
  rw [stepPhase2, if_neg (by rw [h]; exact Bool.false_ne_true)]

lemma stepPhase2_err {sig : Nat → Bool} {st : EngineState α} (r : StepRecord α) {msg : String}
    (h : sig st.clock = false) (hmsg : msg ≠ "WORKFLOW_INTERRUPTED") :
    stepPhase2 sig st r (Work.err msg) =
      (StepOutcome.failure msg,
       { st with clock := st.clock + 2 + 4,
                 invoked := st.invoked ++ [r.stepKey],
                 store := handleStepUpdate st.store
                   { r with status := StepStatus.FAILED,
                            error := some (if msg = "" then "Unknown error" else msg),
                            timestamp := st.clock + 2 + 2 } }) := by
  rw [stepPhase2, if_neg (by rw [h]; exact Bool.false_ne_true)]
  dsimp only
  rw [if_neg hmsg]

end Revive
namespace Revive
variable {α : Type}

/-- Claim C1: for every invocation of `step(label, work)` in an execution
pass, if the Step Record Store contains a record for the computed `stepKey`
(and matching workflow id) with status COMPLETED, then `step` returns that
record's stored result and does not invoke `work` (the state changes only by
the sequence allocation); consequently, across any number of replay passes
over the store, the record stays COMPLETED and unchanged and `work` of such
a step is never invoked again. -/
theorem c1_completed_memoization (wfId key : String) (e : StepRecord α)
    (s : List (StepRecord α))
    (hfind : findExisting s wfId key = some e)
    (hc : e.status = StepStatus.COMPLETED) :
    (∀ (sig : Nat → Bool) (st : EngineState α) (id : String) (fn : Work α),
       mkStepKey id (st.sequenceCounter + 1) = key →
       stepExec wfId s sig st id fn =
         (StepOutcome.ok e.result,
          { st with sequenceCounter := st.sequenceCounter + 1,
                    assigned := st.assigned ++ [(id, st.sequenceCounter + 1)] })) ∧
    (∀ (sigs : Nat → Nat → Bool) (clocks : Nat → Nat)
       (wfs : Nat → List (String × Work α)) (n : Nat),
       findExisting (iterStore wfId sigs clocks wfs s n) wfId key = some e ∧
       key ∉ (runPassFrom wfId (sigs n) (iterStore wfId sigs clocks wfs s n)
                (clocks n) (wfs n)).2.invoked) := by
  constructor
  · intro sig st id fn hkey
    exact stepExec_memo sig fn (by rw [hkey]; exact hfind) hc
  · intro sigs clocks wfs
    have hiter : ∀ n,
        findExisting (iterStore wfId sigs clocks wfs s n) wfId key = some e := by
      intro n
      induction n with
      | zero => exact hfind
      | succ n ihn =>
        show findExisting (runPassFrom wfId (sigs n) (iterStore wfId sigs clocks wfs s n)
              (clocks n) (wfs n)).2.store wfId key = some e
        unfold runPassFrom
        rw [(runSteps_preserves_completed (sigs n) ihn hc (wfs n)
          (initState (iterStore wfId sigs clocks wfs s n) (clocks n))).1]
        exact ihn
    intro n
    refine ⟨hiter n, ?_⟩
    unfold runPassFrom
    exact (runSteps_preserves_completed (sigs n) (hiter n) hc (wfs n)
      (initState (iterStore wfId sigs clocks wfs s n) (clocks n))).2
      (List.not_mem_nil key)

end Revive
namespace Revive

lemma charVal_digitChar (d : Nat) (h : d < 10) : charVal (Nat.digitChar d) = d := by
  interval_cases d <;> rfl

lemma numDigits_big {n : Nat} (h : ¬ n < 10) : numDigits n = numDigits (n / 10) + 1 := by
  rw [numDigits, if_neg h]

lemma foldVal_cons (acc : Nat) (c : Char) (cs : List Char) :
    foldVal acc (c :: cs) = foldVal (acc * 10 + charVal c) cs := rfl

lemma foldVal_toDigitsCore :
    ∀ (fuel n : Nat) (ds : List Char) (acc : Nat), n < fuel →
      foldVal acc (Nat.toDigitsCore 10 fuel n ds) =
        foldVal (acc * 10 ^ numDigits n + n) ds := by
  intro fuel
  induction fuel with
  | zero => intro n ds acc h; omega
  | succ fuel ih =>
    intro n ds acc h
    show foldVal acc
        (if n / 10 = 0 then (n % 10).digitChar :: ds
         else Nat.toDigitsCore 10 fuel (n / 10) ((n % 10).digitChar :: ds)) = _
    by_cases h0 : n / 10 = 0
    · have hn : n < 10 := by omega
      rw [if_pos h0, foldVal_cons, charVal_digitChar _ (Nat.mod_lt _ (by omega))]
      have : numDigits n = 1 := by rw [numDigits, if_pos hn]
      rw [this, Nat.mod_eq_of_lt hn]
      ring_nf
    · have hlt : n / 10 < fuel := by
        have h1 : n / 10 < n := Nat.div_lt_self (by omega) (by omega)
        omega
      rw [if_neg h0, ih _ _ _ hlt, foldVal_cons,
        charVal_digitChar _ (Nat.mod_lt _ (by omega))]
      have hb : ¬ n < 10 := by omega
      rw [numDigits_big hb]
      congr 1
      have := Nat.div_add_mod n 10
      ring_nf
      omega

lemma foldVal_repr (n : Nat) : foldVal 0 (Nat.repr n).data = n := by
  show foldVal 0 (Nat.toDigitsCore 10 (n + 1) n []) = n
  rw [foldVal_toDigitsCore _ _ _ _ (Nat.lt_succ_self n)]
  simp [foldVal]

lemma natRepr_injective {m n : Nat} (h : Nat.repr m = Nat.repr n) : m = n := by
  have := foldVal_repr m
  rw [h, foldVal_repr] at this
  omega

lemma string_data_inj {a b : String} (h : a.data = b.data) : a = b := by
  cases a; cases b; exact congrArg String.mk h

lemma mkStepKey_inj_seq {label : String} {m n : Nat}
    (h : mkStepKey label m = mkStepKey label n) : m = n := by
  unfold mkStepKey at h
  have hd := congrArg String.data h
  simp only [String.data_append, List.append_assoc] at hd
  have := List.append_cancel_left (List.append_cancel_left hd)
  exact natRepr_injective (string_data_inj this)

end Revive

namespace Revive
variable {α : Type}

/-- Claim C2: in every execution pass the sequence allocator hands the i-th
step call the sequence number i (starting at 1) — strictly increasing, no
gaps, no reuse — the i-th allocation carries the label of the i-th step call
of the pass, and all step calls sharing one label receive pairwise distinct
step keys. -/
theorem c2_sequence_allocator (wfId : String) (sig : Nat → Bool) (s : List (StepRecord α))
    (clock : Nat) (wf : List (String × Work α)) :
    ((runPassFrom wfId sig s clock wf).2.assigned).map Prod.snd
      = List.range' 1 ((runPassFrom wfId sig s clock wf).2.assigned).length ∧
    ((runPassFrom wfId sig s clock wf).2.assigned).map Prod.fst
      = (wf.map Prod.fst).take ((runPassFrom wfId sig s clock wf).2.assigned).length ∧
    ∀ l : String,
      ((((runPassFrom wfId sig s clock wf).2.assigned).filter fun p => p.1 == l).map
        fun p => mkStepKey p.1 p.2).Nodup := by
  obtain ⟨pre, ha, hsnd, hfst, _⟩ := runSteps_assigned wfId s sig wf (initState s clock)
  have ha' : (runPassFrom wfId sig s clock wf).2.assigned = pre := by
    unfold runPassFrom
    rw [ha]
    simp [initState]
  have hsnd' : pre.map Prod.snd = List.range' 1 pre.length := by
    simpa [initState] using hsnd
  rw [ha']
  refine ⟨hsnd', by simpa [initState] using hfst, ?_⟩
  intro l
  have hnodA : pre.Nodup := by
    refine List.Nodup.of_map Prod.snd ?_
    rw [hsnd']
    exact List.nodup_range' _ _
  have hnodF : (pre.filter fun p => p.1 == l).Nodup :=
    List.Nodup.sublist (List.filter_sublist pre) hnodA
  refine List.Nodup.map_on ?_ hnodF
  intro x hx y hy hf
  have hxl : x.1 = l := beq_iff_eq.1 (List.mem_filter.1 hx).2
  have hyl : y.1 = l := beq_iff_eq.1 (List.mem_filter.1 hy).2
  rw [hxl, hyl] at hf
  exact Prod.ext (hxl.trans hyl.symm) (mkStepKey_inj_seq hf)

end Revive
namespace Revive
variable {α : Type}

/-- Claim C3 counterexample: the step key the engine computes and stores does
not involve the workflow execution id at all.  Two executions with different
workflow ids ("W1" and "W2") write records under one and the same step key
"A_seq_1", and no character of the id "W1" even occurs in that key, so the
key cannot be the concatenation of the workflow execution id with the label
and the sequence number. -/
theorem c3_counterexample :
    ((stepExec "W1" [] sigNever (initState ([] : List (StepRecord Nat)) 0) "A"
        (Work.ok 1)).2.store.map fun r => r.stepKey) = ["A_seq_1"] ∧
    ((stepExec "W2" [] sigNever (initState ([] : List (StepRecord Nat)) 0) "A"
        (Work.ok 1)).2.store.map fun r => r.stepKey) = ["A_seq_1"] ∧
    "W1" ≠ "W2" ∧
    'W' ∈ "W1".data ∧ 'W' ∉ "A_seq_1".data := by
  decide

/-- Claim C3 amended: the step key of every step invocation is the
concatenation of the step label, the literal `_seq_`, and the sequence
number — the workflow execution id is not part of it.  Every record the
executor writes is keyed by that step key; the store upsert locates the row
to replace by step key equality alone (even across workflow ids), while the
memo lookup matches workflow id and step key together. -/
theorem c3_amended :
    (∀ (id : String) (n : Nat), mkStepKey id n = id ++ "_seq_" ++ toString n) ∧
    (∀ (wfId : String) (db : List (StepRecord α)) (sig : Nat → Bool)
       (st : EngineState α) (id : String) (fn : Work α),
       ∀ rec ∈ (stepExec wfId db sig st id fn).2.store,
         rec ∈ st.store ∨ rec.stepKey = mkStepKey id (st.sequenceCounter + 1)) ∧
    (∀ (s : List (StepRecord α)) (r old : StepRecord α),
       old.stepKey = r.stepKey → handleStepUpdate (old :: s) r = r :: s) ∧
    (∀ (e : StepRecord α) (wfId : String),
       (e.workflowId = wfId → findExisting [e] wfId e.stepKey = some e) ∧
       (e.workflowId ≠ wfId → findExisting [e] wfId e.stepKey = none)) := by
  refine ⟨fun id n => rfl, ?_, ?_, ?_⟩
  · intro wfId db sig st id fn rec hmem
    rcases stepExec_store wfId db sig st id fn with hst |
      ⟨_, r1, hk1, _, _, hst | ⟨r2, hk2, _, _, hst⟩⟩
    · rw [hst] at hmem
      exact Or.inl hmem
    · rw [hst] at hmem
      rcases mem_handleStepUpdate hmem with h | h
      · exact Or.inl h
      · exact Or.inr (h ▸ hk1)
    · rw [hst] at hmem
      rcases mem_handleStepUpdate hmem with h | h
      · rcases mem_handleStepUpdate h with h' | h'
        · exact Or.inl h'
        · exact Or.inr (h' ▸ hk1)
      · exact Or.inr (h ▸ hk2)
  · intro s r old hkey
    simp only [handleStepUpdate, if_pos hkey]
  · intro e wfId
    constructor
    · intro h
      rw [findExisting_cons, if_pos ⟨h, rfl⟩]
    · intro h
      rw [findExisting_cons, if_neg fun hh => h hh.1]
      rfl

/-- Claim C3 witness: concrete instances of the amended statement. -/
theorem c3_witness :
    mkStepKey "A" 1 = "A" ++ "_seq_" ++ toString 1 ∧
    handleStepUpdate
        [{ workflowId := "OTHER", stepKey := "A_seq_1", id := "A", sequence := 1,
           status := StepStatus.COMPLETED, result := some (5 : Nat), error := none,
           timestamp := 0 }]
        { workflowId := "W", stepKey := "A_seq_1", id := "A", sequence := 1,
          status := StepStatus.RUNNING, result := none, error := none, timestamp := 1 }
      = [{ workflowId := "W", stepKey := "A_seq_1", id := "A", sequence := 1,
           status := StepStatus.RUNNING, result := none, error := none, timestamp := 1 }] ∧
    findExisting
        [{ workflowId := "OTHER", stepKey := "A_seq_1", id := "A", sequence := 1,
           status := StepStatus.COMPLETED, result := some (5 : Nat), error := none,
           timestamp := 0 }] "W" "A_seq_1" = none := by
  refine ⟨(@c3_amended Nat).1 "A" 1, (@c3_amended Nat).2.2.1 _ _ _ rfl, ?_⟩
  exact ((@c3_amended Nat).2.2.2 _ "W").2 (by decide)

end Revive
namespace Revive
variable {α : Type}

lemma stepPhase1_poll1_interrupted {wfId : String} {db : List (StepRecord α)}
    {sig : Nat → Bool} {st : EngineState α} {id : String} (fn : Work α)
    (hmem : isCompletedHit
      (findExisting db wfId (mkStepKey id (st.sequenceCounter + 1))) = false)
    (h1 : sig st.clock = true) :
    stepPhase1 wfId db sig st id fn =
      (Phase1.interrupted,
       { st with sequenceCounter := st.sequenceCounter + 1,
                 assigned := st.assigned ++ [(id, st.sequenceCounter + 1)],
                 clock := st.clock + 1 }) := by
  simp only [stepPhase1]
  cases hf : findExisting db wfId (mkStepKey id (st.sequenceCounter + 1)) with
  | none =>
    dsimp only
    rw [stepBegin, if_pos (by exact h1)]
  | some e =>
    rw [hf] at hmem
    dsimp only
    rw [if_neg (not_completed_of_hit_false hmem),
      stepBegin, if_pos (by exact h1)]

lemma stepExec_interrupted_early {wfId : String} {db : List (StepRecord α)}
    {sig : Nat → Bool} {st : EngineState α} {id : String} (fn : Work α)
    (hmem : isCompletedHit
      (findExisting db wfId (mkStepKey id (st.sequenceCounter + 1))) = false)
    (hsig : sig st.clock = true ∨ (sig st.clock = false ∧ sig (st.clock + 4) = true)) :
    (stepExec wfId db sig st id fn).1 = StepOutcome.interrupted ∧
    (stepExec wfId db sig st id fn).2.invoked = st.invoked ∧
    ((stepExec wfId db sig st id fn).2.store = st.store ∨
     ∃ rec : StepRecord α, rec.status = StepStatus.RUNNING ∧
       rec.stepKey = mkStepKey id (st.sequenceCounter + 1) ∧
       (stepExec wfId db sig st id fn).2.store = handleStepUpdate st.store rec) := by
  rcases hsig with h1 | ⟨h1, h2⟩
  · rw [stepExec, stepPhase1_poll1_interrupted fn hmem h1]
    exact ⟨rfl, rfl, Or.inl rfl⟩
  · rw [stepExec, stepPhase1_run fn hmem h1]
    dsimp only
    rw [stepPhase2, if_pos (by exact h2)]
    refine ⟨rfl, rfl, Or.inr ⟨_, rfl, rfl, rfl⟩⟩

/-- Claim C4 counterexample: on an empty store, with the Interruption Signal
asserted from time 1 on (after the first poll at time 0 but before the
second poll at time 4, hence before the step's `work` starts — `work` was
never invoked, as the empty invocation trace shows), the pass does report
`Interrupted`, but the step's record is neither absent nor PENDING: it is
present with status RUNNING. -/
theorem c4_counterexample :
    (runPassFrom "W" (sigFrom 1) ([] : List (StepRecord Nat)) 0
        [("A", Work.ok 5)]).1 = PassOutcome.interrupted ∧
    ((runPassFrom "W" (sigFrom 1) ([] : List (StepRecord Nat)) 0
        [("A", Work.ok 5)]).2.store.map fun r => (r.stepKey, r.status))
      = [("A_seq_1", StepStatus.RUNNING)] ∧
    (runPassFrom "W" (sigFrom 1) ([] : List (StepRecord Nat)) 0
        [("A", Work.ok 5)]).2.invoked = [] := by
  decide

/-- Claim C4 amended: for a step whose record is not already COMPLETED, if
the Interruption Signal is asserted at one of the executor's two polls (both
of which precede `work`), the pass aborts with the distinguished Interrupted
outcome (not a step failure), `work` is not invoked, and the executor
commits no COMPLETED or FAILED record for it: the step's record either
keeps its prior state (first poll) or is left RUNNING (second poll). -/
theorem c4_interrupted_before_work (wfId : String) (db : List (StepRecord α))
    (sig : Nat → Bool) (st : EngineState α) (id : String) (fn : Work α)
    (rest : List (String × Work α))
    (hmem : isCompletedHit
      (findExisting db wfId (mkStepKey id (st.sequenceCounter + 1))) = false)
    (hsig : sig st.clock = true ∨ (sig st.clock = false ∧ sig (st.clock + 4) = true)) :
    (runSteps wfId db sig st ((id, fn) :: rest)).1 = PassOutcome.interrupted ∧
    (∀ msg, (runSteps wfId db sig st ((id, fn) :: rest)).1 ≠ PassOutcome.failure msg) ∧
    (runSteps wfId db sig st ((id, fn) :: rest)).2.invoked = st.invoked ∧
    ((runSteps wfId db sig st ((id, fn) :: rest)).2.store = st.store ∨
     ∃ rec : StepRecord α, rec.status = StepStatus.RUNNING ∧
       rec.stepKey = mkStepKey id (st.sequenceCounter + 1) ∧
       (runSteps wfId db sig st ((id, fn) :: rest)).2.store
         = handleStepUpdate st.store rec) := by
  have h := stepExec_interrupted_early fn hmem hsig
  simp only [runSteps]
  rcases hs : stepExec wfId db sig st id fn with ⟨o, st1⟩
  rw [hs] at h
  rcases h with ⟨ho, hinv, hst⟩
  dsimp only at ho hinv hst
  subst ho
  dsimp only
  exact ⟨rfl, fun msg hne => PassOutcome.noConfusion hne, hinv, hst⟩

/-- Claim C4 witness: the amended statement instantiated on an empty store
with the signal asserted from time 0, so the first poll sees it. -/
theorem c4_witness :
    (runSteps "W" ([] : List (StepRecord Nat)) (sigFrom 0)
        (initState [] 0) [("A", Work.ok 5)]).1 = PassOutcome.interrupted ∧
    (∀ msg, (runSteps "W" ([] : List (StepRecord Nat)) (sigFrom 0)
        (initState [] 0) [("A", Work.ok 5)]).1 ≠ PassOutcome.failure msg) ∧
    (runSteps "W" ([] : List (StepRecord Nat)) (sigFrom 0)
        (initState [] 0) [("A", Work.ok 5)]).2.invoked = (initState ([] : List (StepRecord Nat)) 0).invoked ∧
    ((runSteps "W" ([] : List (StepRecord Nat)) (sigFrom 0)
        (initState [] 0) [("A", Work.ok 5)]).2.store = (initState ([] : List (StepRecord Nat)) 0).store ∨
     ∃ rec : StepRecord Nat, rec.status = StepStatus.RUNNING ∧
       rec.stepKey = mkStepKey "A" ((initState ([] : List (StepRecord Nat)) 0).sequenceCounter + 1) ∧
       (runSteps "W" ([] : List (StepRecord Nat)) (sigFrom 0)
           (initState [] 0) [("A", Work.ok 5)]).2.store
         = handleStepUpdate (initState ([] : List (StepRecord Nat)) 0).store rec) :=
  c4_interrupted_before_work "W" [] (sigFrom 0) (initState [] 0) "A" (Work.ok 5) []
    (by decide) (Or.inl (by decide))

end Revive
namespace Revive
variable {α : Type}

lemma stepPhase1_sig_agree {sig sig' : Nat → Bool} (wfId : String)
    (db : List (StepRecord α)) (st : EngineState α) (id : String) (fn : Work α)
    (h1 : sig st.clock = sig' st.clock) :
    stepPhase1 wfId db sig st id fn = stepPhase1 wfId db sig' st id fn := by
  simp only [stepPhase1]
  cases hf : findExisting db wfId (mkStepKey id (st.sequenceCounter + 1)) with
  | none =>
    dsimp only
    unfold stepBegin
    rw [h1]
  | some e =>
    dsimp only
    by_cases hc : e.status = StepStatus.COMPLETED
    · rw [if_pos hc, if_pos hc]
    · rw [if_neg hc, if_neg hc]
      unfold stepBegin
      rw [h1]

lemma stepPhase2_sig_agree {sig sig' : Nat → Bool} (st : EngineState α)
    (rec : StepRecord α) (fn : Work α) (h : sig st.clock = sig' st.clock) :
    stepPhase2 sig st rec fn = stepPhase2 sig' st rec fn := by
  unfold stepPhase2
  rw [h]

lemma stepPhase1_active_clock {wfId : String} {db : List (StepRecord α)}
    {sig : Nat → Bool} {st : EngineState α} {id : String} {fn : Work α}
    {rec : StepRecord α} {fn1 : Work α}
    (h : (stepPhase1 wfId db sig st id fn).1 = Phase1.active rec fn1) :
    (stepPhase1 wfId db sig st id fn).2.clock = st.clock + 4 := by
  revert h
  simp only [stepPhase1]
  cases hf : findExisting db wfId (mkStepKey id (st.sequenceCounter + 1)) with
  | none =>
    dsimp only
    unfold stepBegin
    split
    · intro h; exact Phase1.noConfusion h
    · intro _; rfl
  | some e =>
    dsimp only
    by_cases hc : e.status = StepStatus.COMPLETED
    · rw [if_pos hc]
      intro h
      exact Phase1.noConfusion h
    · rw [if_neg hc]
      unfold stepBegin
      split
      · intro h; exact Phase1.noConfusion h
      · intro _; rfl

/-- Claim C5 counterexample: with the signal asserted from time 5 on — in
particular asserted at every instant from before `work` runs (time 6)
through the commit (time 8), so any pre-commit poll would see it — the
executor still commits the COMPLETED record and the pass succeeds.  There is
no poll immediately before the terminal commit. -/
theorem c5_counterexample :
    (runPassFrom "W" (sigFrom 5) ([] : List (StepRecord Nat)) 0
        [("A", Work.ok 5)]).1 = PassOutcome.success [some 5] ∧
    ((runPassFrom "W" (sigFrom 5) ([] : List (StepRecord Nat)) 0
        [("A", Work.ok 5)]).2.store.map fun r => (r.stepKey, r.status))
      = [("A_seq_1", StepStatus.COMPLETED)] ∧
    sigFrom 5 4 = false ∧ sigFrom 5 5 = true ∧ sigFrom 5 8 = true := by
  decide

/-- Claim C5 amended: the executor samples the Interruption Signal at exactly
two points of a step invocation, the poll before the RUNNING upsert (clock
`t`) and the poll after the delay immediately before invoking `work` (clock
`t + 4`): its entire behaviour is unchanged under any modification of the
signal outside those two sample times.  In particular there is no pre-commit
poll, and a terminal record can be committed while the signal is asserted. -/
theorem c5_polls_two_points (wfId : String) (db : List (StepRecord α))
    (sig sig' : Nat → Bool) (st : EngineState α) (id : String) (fn : Work α)
    (h1 : sig st.clock = sig' st.clock)
    (h2 : sig (st.clock + 4) = sig' (st.clock + 4)) :
    stepExec wfId db sig st id fn = stepExec wfId db sig' st id fn := by
  rw [stepExec, stepExec, stepPhase1_sig_agree wfId db st id fn h1]
  rcases hp : stepPhase1 wfId db sig' st id fn with ⟨p, st1⟩
  cases p with
  | memo v => rfl
  | interrupted => rfl
  | active rec fn1 =>
    have hact : (stepPhase1 wfId db sig' st id fn).1 = Phase1.active rec fn1 := by
      rw [hp]
    have hclock : st1.clock = st.clock + 4 := by
      have h := stepPhase1_active_clock hact
      rw [hp] at h
      exact h
    exact stepPhase2_sig_agree st1 rec fn1 (by rw [hclock]; exact h2)

end Revive
namespace Revive
variable {α : Type}

/-- Claim C5 witness: a signal asserted only from time 9 on and the
never-asserted signal agree at the two poll times 0 and 4, so the executor
behaves identically under them. -/
theorem c5_witness :
    stepExec "W" ([] : List (StepRecord Nat)) (sigFrom 9) (initState [] 0) "A"
        (Work.ok 5)
      = stepExec "W" ([] : List (StepRecord Nat)) sigNever (initState [] 0) "A"
        (Work.ok 5) :=
  c5_polls_two_points "W" [] (sigFrom 9) sigNever (initState [] 0) "A" (Work.ok 5)
    (by decide) (by decide)

/-- Claim C6 counterexample: with the signal clear at both polls (times 0
and 4) but asserted from time 7 on — strictly after `work` ran at time 6
(the invocation trace shows it ran) and before the commit at time 8 — the
record does not stay RUNNING: the commit is unconditional and the record
becomes COMPLETED. -/
theorem c6_counterexample :
    (runPassFrom "W" (sigFrom 7) ([] : List (StepRecord Nat)) 0
        [("A", Work.ok 37)]).1 = PassOutcome.success [some 37] ∧
    ((runPassFrom "W" (sigFrom 7) ([] : List (StepRecord Nat)) 0
        [("A", Work.ok 37)]).2.store.map fun r => (r.stepKey, r.status))
      = [("A_seq_1", StepStatus.COMPLETED)] ∧
    (runPassFrom "W" (sigFrom 7) ([] : List (StepRecord Nat)) 0
        [("A", Work.ok 37)]).2.invoked = ["A_seq_1"] ∧
    sigFrom 7 6 = false ∧ sigFrom 7 7 = true ∧ sigFrom 7 8 = true := by
  decide

/-- Claim C6 amended: there is no poll between `work` finishing and the
terminal commit, so a signal asserted only in that window does not prevent
the COMPLETED commit — whenever the two polls (clock `t` and `t + 4`) are
clear and `work` resolves, the record at the step key ends COMPLETED with
the result, whatever the signal does at any other time.  The stuck-RUNNING
state instead arises from the poll before `work`; and on a later pass, a
step whose record is found RUNNING at the same step key re-invokes `work`
rather than returning the ambiguous state (at-least-once execution). -/
theorem c6_zombie_window (wfId : String) (db : List (StepRecord α))
    (sig : Nat → Bool) (st : EngineState α) (id : String) :
    (∀ v : α,
       isCompletedHit
         (findExisting db wfId (mkStepKey id (st.sequenceCounter + 1))) = false →
       sig st.clock = false → sig (st.clock + 4) = false →
       (stepExec wfId db sig st id (Work.ok v)).1 = StepOutcome.ok (some v) ∧
       ∃ rec, findExisting (stepExec wfId db sig st id (Work.ok v)).2.store wfId
           (mkStepKey id (st.sequenceCounter + 1)) = some rec ∧
         rec.status = StepStatus.COMPLETED ∧ rec.result = some v) ∧
    (∀ (fn : Work α) (e : StepRecord α),
       findExisting db wfId (mkStepKey id (st.sequenceCounter + 1)) = some e →
       e.status = StepStatus.RUNNING →
       sig st.clock = false → sig (st.clock + 4) = false →
       (stepExec wfId db sig st id fn).2.invoked
         = st.invoked ++ [mkStepKey id (st.sequenceCounter + 1)]) := by
  constructor
  · intro v hmem h1 h2
    rw [stepExec, stepPhase1_run (Work.ok v) hmem h1]
    dsimp only
    rw [stepPhase2_ok _ v (by exact h2)]
    refine ⟨rfl, ?_⟩
    dsimp only
    refine ⟨_, findExisting_handleStepUpdate_self rfl, rfl, rfl⟩
  · intro fn e hfind he h1 h2
    have hmem : isCompletedHit
        (findExisting db wfId (mkStepKey id (st.sequenceCounter + 1))) = false := by
      rw [hfind]
      refine isCompletedHit_false ?_
      rw [he]
      intro hco
      exact StepStatus.noConfusion hco
    rw [stepExec, stepPhase1_run fn hmem h1]
    dsimp only
    cases fn with
    | ok v =>
      rw [stepPhase2_ok _ v (by exact h2)]
    | err msg =>
      by_cases hmsg : msg = "WORKFLOW_INTERRUPTED"
      · rw [stepPhase2, if_neg (by rw [show sig _ = false from h2]; exact Bool.false_ne_true)]
        dsimp only
        rw [if_pos hmsg]
      · rw [stepPhase2_err _ (by exact h2) hmsg]

end Revive
namespace Revive

/-- Claim C1 witness: a store holding a COMPLETED record for key "A_seq_1"
with result 7; the step call returns the cached 7 without running its own
`fn`, and after two further replay passes the record is unchanged and the
key was never invoked. -/
theorem c1_witness :
    (stepExec "W" [sampleCompletedA] sigNever (initState [sampleCompletedA] 0) "A"
        (Work.ok (99 : Nat))).1 = StepOutcome.ok (some 7) ∧
    findExisting (iterStore "W" (fun _ => sigNever) (fun _ => 0)
        (fun _ => [("A", Work.ok (99 : Nat))]) [sampleCompletedA] 2) "W" "A_seq_1"
      = some sampleCompletedA ∧
    "A_seq_1" ∉ (runPassFrom "W" sigNever
        (iterStore "W" (fun _ => sigNever) (fun _ => 0)
          (fun _ => [("A", Work.ok (99 : Nat))]) [sampleCompletedA] 2) 0
        [("A", Work.ok (99 : Nat))]).2.invoked := by
  have h := c1_completed_memoization "W" "A_seq_1" sampleCompletedA [sampleCompletedA]
    (by decide) (by decide)
  have hb := h.2 (fun _ => sigNever) (fun _ => 0) (fun _ => [("A", Work.ok (99 : Nat))]) 2
  refine ⟨?_, hb.1, hb.2⟩
  rw [h.1 sigNever (initState [sampleCompletedA] 0) "A" (Work.ok 99) (by decide)]
  decide

/-- Claim C6 witness: both halves of the amended statement at concrete
inputs — commit under a signal asserted from time 7, and re-invocation of a
step found RUNNING. -/
theorem c6_witness :
    ((stepExec "W" ([] : List (StepRecord Nat)) (sigFrom 7) (initState [] 0) "A"
        (Work.ok 37)).1 = StepOutcome.ok (some 37) ∧
     ∃ rec, findExisting (stepExec "W" ([] : List (StepRecord Nat)) (sigFrom 7)
           (initState [] 0) "A" (Work.ok 37)).2.store "W"
           (mkStepKey "A" ((initState ([] : List (StepRecord Nat)) 0).sequenceCounter + 1))
         = some rec ∧
       rec.status = StepStatus.COMPLETED ∧ rec.result = some 37) ∧
    (stepExec "W" [sampleRunningA] sigNever (initState [sampleRunningA] 0) "A"
        (Work.ok 1)).2.invoked
      = (initState [sampleRunningA] 0).invoked
        ++ [mkStepKey "A" ((initState [sampleRunningA] 0).sequenceCounter + 1)] := by
  constructor
  · exact (c6_zombie_window "W" [] (sigFrom 7) (initState [] 0) "A").1 37
      (by decide) (by decide) (by decide)
  · exact (c6_zombie_window "W" [sampleRunningA] sigNever
      (initState [sampleRunningA] 0) "A").2 (Work.ok 1) sampleRunningA
      (by decide) (by decide) (by decide) (by decide)

end Revive
namespace Revive
variable {α : Type}

/-- Claim C7 counterexample: when `work` rejects with an empty message, the
FAILED record does not contain that error message — the code stores the
fallback text "Unknown error" instead, while the caller receives the
original empty-message failure. -/
theorem c7_counterexample :
    ((runPassFrom "W" sigNever ([] : List (StepRecord Nat)) 0
        [("A", Work.err "")]).2.store.map fun r => (r.status, r.error))
      = [(StepStatus.FAILED, some "Unknown error")] ∧
    (runPassFrom "W" sigNever ([] : List (StepRecord Nat)) 0
        [("A", Work.err "")]).1 = PassOutcome.failure "" := by
  decide

/-- Claim C7 amended: when `work` rejects with an error other than the
interruption marker (and the pass is not interrupted at the two polls), the
executor writes a FAILED record whose error field holds the error message —
with "Unknown error" substituted when the message is empty — propagates the
original failure to the caller as a step failure distinct from the
Interrupted outcome, and no further step of the pass executes: the pass
allocates and invokes nothing beyond the failing step. -/
theorem c7_step_failure (wfId : String) (db : List (StepRecord α)) (sig : Nat → Bool)
    (st : EngineState α) (id msg : String) (rest : List (String × Work α))
    (hmsg : msg ≠ "WORKFLOW_INTERRUPTED")
    (hmem : isCompletedHit
      (findExisting db wfId (mkStepKey id (st.sequenceCounter + 1))) = false)
    (h1 : sig st.clock = false) (h2 : sig (st.clock + 4) = false) :
    (runSteps wfId db sig st ((id, Work.err msg) :: rest)).1
      = PassOutcome.failure msg ∧
    (runSteps wfId db sig st ((id, Work.err msg) :: rest)).1
      ≠ PassOutcome.interrupted ∧
    (∃ rec, findExisting (runSteps wfId db sig st ((id, Work.err msg) :: rest)).2.store
         wfId (mkStepKey id (st.sequenceCounter + 1)) = some rec ∧
       rec.status = StepStatus.FAILED ∧
       rec.error = some (if msg = "" then "Unknown error" else msg)) ∧
    (runSteps wfId db sig st ((id, Work.err msg) :: rest)).2.assigned
      = st.assigned ++ [(id, st.sequenceCounter + 1)] ∧
    (runSteps wfId db sig st ((id, Work.err msg) :: rest)).2.invoked
      = st.invoked ++ [mkStepKey id (st.sequenceCounter + 1)] := by
  simp only [runSteps]
  rw [stepExec, stepPhase1_run (Work.err msg) hmem h1]
  dsimp only
  rw [stepPhase2_err _ (by exact h2) hmsg]
  dsimp only
  refine ⟨rfl, fun hne => PassOutcome.noConfusion hne, ?_, rfl, rfl⟩
  exact ⟨_, findExisting_handleStepUpdate_self rfl, rfl, rfl⟩

/-- Claim C7 witness: a step failing with message "boom" in front of a
second step that never runs. -/
theorem c7_witness :
    (runSteps "W" ([] : List (StepRecord Nat)) sigNever (initState [] 0)
        [("A", Work.err "boom"), ("B", Work.ok 1)]).1 = PassOutcome.failure "boom" ∧
    (runSteps "W" ([] : List (StepRecord Nat)) sigNever (initState [] 0)
        [("A", Work.err "boom"), ("B", Work.ok 1)]).1 ≠ PassOutcome.interrupted ∧
    (∃ rec, findExisting (runSteps "W" ([] : List (StepRecord Nat)) sigNever
           (initState [] 0) [("A", Work.err "boom"), ("B", Work.ok 1)]).2.store
         "W" (mkStepKey "A" ((initState ([] : List (StepRecord Nat)) 0).sequenceCounter + 1))
       = some rec ∧
       rec.status = StepStatus.FAILED ∧
       rec.error = some (if "boom" = "" then "Unknown error" else "boom")) ∧
    (runSteps "W" ([] : List (StepRecord Nat)) sigNever (initState [] 0)
        [("A", Work.err "boom"), ("B", Work.ok 1)]).2.assigned
      = (initState ([] : List (StepRecord Nat)) 0).assigned
        ++ [("A", (initState ([] : List (StepRecord Nat)) 0).sequenceCounter + 1)] ∧
    (runSteps "W" ([] : List (StepRecord Nat)) sigNever (initState [] 0)
        [("A", Work.err "boom"), ("B", Work.ok 1)]).2.invoked
      = (initState ([] : List (StepRecord Nat)) 0).invoked
        ++ [mkStepKey "A" ((initState ([] : List (StepRecord Nat)) 0).sequenceCounter + 1)] :=
  c7_step_failure "W" [] sigNever (initState [] 0) "A" "boom" [("B", Work.ok 1)]
    (by decide) (by decide) (by decide) (by decide)

end Revive
namespace Revive
variable {α : Type}

/-- Claim C8 counterexample: a FAILED record is a terminal record, yet it is
rewritten.  A first pass leaves step "A" FAILED; a resume pass over that
store retries the step and overwrites the very same row (same step key) back
through RUNNING to COMPLETED. -/
theorem c8_counterexample :
    ((runPassFrom "W" sigNever ([] : List (StepRecord Nat)) 0
        [("A", Work.err "boom")]).2.store.map fun r => (r.stepKey, r.status))
      = [("A_seq_1", StepStatus.FAILED)] ∧
    (((runPassFrom "W" sigNever
          (runPassFrom "W" sigNever ([] : List (StepRecord Nat)) 0
            [("A", Work.err "boom")]).2.store 0
          [("A", Work.ok 7)]).2.store).map fun r => (r.stepKey, r.status))
      = [("A_seq_1", StepStatus.COMPLETED)] := by
  decide

/-- Claim C8 amended: every store mutation of a step execution is keyed
RUNNING-then-terminal — the executor either writes nothing, or upserts a
RUNNING record, or upserts a RUNNING record and then a COMPLETED or FAILED
record over the same step key — and a COMPLETED record is never rewritten by
any later pass of the same workflow; but a FAILED record is not protected:
a subsequent pass retries its step and overwrites it (see the
counterexample), and PENDING is never stored. -/
theorem c8_monotone_records (wfId : String) :
    (∀ (db : List (StepRecord α)) (sig : Nat → Bool) (st : EngineState α)
       (id : String) (fn : Work α),
       (stepExec wfId db sig st id fn).2.store = st.store ∨
       ∃ r1 : StepRecord α, r1.stepKey = mkStepKey id (st.sequenceCounter + 1) ∧
         r1.status = StepStatus.RUNNING ∧
         ((stepExec wfId db sig st id fn).2.store = handleStepUpdate st.store r1 ∨
          ∃ r2 : StepRecord α, r2.stepKey = mkStepKey id (st.sequenceCounter + 1) ∧
            (r2.status = StepStatus.COMPLETED ∨ r2.status = StepStatus.FAILED) ∧
            (stepExec wfId db sig st id fn).2.store
              = handleStepUpdate (handleStepUpdate st.store r1) r2)) ∧
    (∀ (s : List (StepRecord α)) (key : String) (e : StepRecord α) (sig : Nat → Bool)
       (clock : Nat) (wf : List (String × Work α)),
       findExisting s wfId key = some e → e.status = StepStatus.COMPLETED →
       findExisting (runPassFrom wfId sig s clock wf).2.store wfId key = some e) := by
  constructor
  · intro db sig st id fn
    rcases stepExec_store wfId db sig st id fn with hst |
      ⟨_, r1, hk1, _, hs1, hst | ⟨r2, hk2, _, hs2, hst⟩⟩
    · exact Or.inl hst
    · exact Or.inr ⟨r1, hk1, hs1, Or.inl hst⟩
    · exact Or.inr ⟨r1, hk1, hs1, Or.inr ⟨r2, hk2, hs2, hst⟩⟩
  · intro s key e sig clock wf hfind hc
    unfold runPassFrom
    rw [(runSteps_preserves_completed sig hfind hc wf (initState s clock)).1]
    exact hfind

/-- Claim C8 witness: the write-discipline disjunction at a concrete fresh
step, and preservation of a concrete COMPLETED record across a pass that
runs the same step list again. -/
theorem c8_witness :
    ((stepExec "W" ([] : List (StepRecord Nat)) sigNever (initState [] 0) "A"
        (Work.ok 7)).2.store = (initState ([] : List (StepRecord Nat)) 0).store ∨
     ∃ r1 : StepRecord Nat,
       r1.stepKey = mkStepKey "A" ((initState ([] : List (StepRecord Nat)) 0).sequenceCounter + 1) ∧
       r1.status = StepStatus.RUNNING ∧
       ((stepExec "W" ([] : List (StepRecord Nat)) sigNever (initState [] 0) "A"
           (Work.ok 7)).2.store
          = handleStepUpdate (initState ([] : List (StepRecord Nat)) 0).store r1 ∨
        ∃ r2 : StepRecord Nat,
          r2.stepKey = mkStepKey "A" ((initState ([] : List (StepRecord Nat)) 0).sequenceCounter + 1) ∧
          (r2.status = StepStatus.COMPLETED ∨ r2.status = StepStatus.FAILED) ∧
          (stepExec "W" ([] : List (StepRecord Nat)) sigNever (initState [] 0) "A"
              (Work.ok 7)).2.store
            = handleStepUpdate
                (handleStepUpdate (initState ([] : List (StepRecord Nat)) 0).store r1) r2)) ∧
    findExisting (runPassFrom "W" sigNever [sampleCompletedA] 0
        [("A", Work.ok 9)]).2.store "W" "A_seq_1" = some sampleCompletedA := by
  refine ⟨(c8_monotone_records "W").1 [] sigNever (initState [] 0) "A" (Work.ok 7), ?_⟩
  exact (c8_monotone_records "W").2 [sampleCompletedA] "A_seq_1" sampleCompletedA
    sigNever 0 [("A", Work.ok 9)] (by decide) (by decide)

end Revive
namespace Revive
variable {α : Type}

/-- Claim C9: `parallel` over branches B1..Bk allocates their sequence
numbers in the caller's positional order during the synchronous phase-1
sweep — before any branch's `work` has run (the invocation trace is still
untouched when phase 1 ends), and phase 2 adds no further allocations — and
when every branch's `work` resolves (no interruption), the call resolves
with the list of branch results in positional correspondence with the input
list. -/
theorem c9_parallel_order (wfId : String) (db : List (StepRecord α))
    (st : EngineState α) (branches : List (String × Work α)) :
    (∀ sig : Nat → Bool,
       (parPhase1 wfId db sig st branches).1.assigned
         = st.assigned ++ parAssigned st.sequenceCounter branches ∧
       (parPhase1 wfId db sig st branches).1.invoked = st.invoked ∧
       (parallelExec wfId db sig st branches).2.assigned
         = (parPhase1 wfId db sig st branches).1.assigned) ∧
    (∀ sig : Nat → Bool, (∀ n, sig n = false) →
       (∀ b ∈ branches, ∃ v, b.2 = Work.ok v) →
       (parallelExec wfId db sig st branches).1
         = PassOutcome.success (branchValues wfId db st.sequenceCounter branches)) := by
  constructor
  · intro sig
    have h1 := parPhase1_state wfId db sig branches st
    refine ⟨h1.1, h1.2.1, ?_⟩
    unfold parallelExec
    rcases hp : parPhase1 wfId db sig st branches with ⟨st1, ps⟩
    rw [hp] at h1
    dsimp only
    rcases h2 : parPhase2 sig st1 ps with ⟨st2, os⟩
    have ha := parPhase2_assigned sig ps st1
    rw [h2] at ha
    exact ha.1
  · intro sig hsig hok
    unfold parallelExec
    rcases hp : parPhase1 wfId db sig st branches with ⟨st1, ps⟩
    dsimp only
    rcases h2 : parPhase2 sig st1 ps with ⟨st2, os⟩
    have hrej : phase1Rejected ps = false := by
      have := phase1Rejected_false hsig wfId db branches st
      rw [hp] at this
      exact this
    rw [hrej, if_neg (by exact Bool.false_ne_true)]
    have hos : os = ps.map phase2Outcome := by
      have := parPhase2_outcomes hsig ps st1
      rw [h2] at this
      exact this
    have hps : ps.map phase2Outcome = branchOutcomes wfId db st.sequenceCounter branches := by
      have := parPhase1_outcomes hsig wfId db branches st
      rw [hp] at this
      exact this
    rw [hos, hps, branchOutcomes_all_ok wfId db branches st.sequenceCounter hok,
      collectAll_map_ok]

/-- Claim C9 witness: the two-branch parallel block of the bundled workflow
shape, on an empty store: sequence numbers 1 and 2 are pre-allocated in
input order with nothing invoked yet, and the results come back in input
order. -/
theorem c9_witness :
    ((parPhase1 "W" ([] : List (StepRecord Nat)) sigNever (initState [] 0)
        [("L", Work.ok 10), ("R", Work.ok 20)]).1.assigned
      = (initState ([] : List (StepRecord Nat)) 0).assigned
        ++ parAssigned (initState ([] : List (StepRecord Nat)) 0).sequenceCounter
             [("L", Work.ok 10), ("R", Work.ok 20)] ∧
     (parPhase1 "W" ([] : List (StepRecord Nat)) sigNever (initState [] 0)
        [("L", Work.ok 10), ("R", Work.ok 20)]).1.invoked
      = (initState ([] : List (StepRecord Nat)) 0).invoked ∧
     (parallelExec "W" ([] : List (StepRecord Nat)) sigNever (initState [] 0)
        [("L", Work.ok 10), ("R", Work.ok 20)]).2.assigned
      = (parPhase1 "W" ([] : List (StepRecord Nat)) sigNever (initState [] 0)
          [("L", Work.ok 10), ("R", Work.ok 20)]).1.assigned) ∧
    (parallelExec "W" ([] : List (StepRecord Nat)) sigNever (initState [] 0)
        [("L", Work.ok 10), ("R", Work.ok 20)]).1
      = PassOutcome.success (branchValues "W" ([] : List (StepRecord Nat))
          (initState ([] : List (StepRecord Nat)) 0).sequenceCounter
          [("L", Work.ok 10), ("R", Work.ok 20)]) := by
  refine ⟨(c9_parallel_order "W" [] (initState [] 0)
      [("L", Work.ok 10), ("R", Work.ok 20)]).1 sigNever, ?_⟩
  refine (c9_parallel_order "W" [] (initState [] 0)
      [("L", Work.ok 10), ("R", Work.ok 20)]).2 sigNever (fun n => rfl) ?_
  intro b hb
  rcases List.mem_cons.1 hb with hb | hb
  · exact ⟨10, by rw [hb]⟩
  · rcases List.mem_cons.1 hb with hb | hb
    · exact ⟨20, by rw [hb]⟩
    · cases hb

/-- Claim C10: the Step Executor never stores a PENDING row — every record
present after a pass either was already in the store before or has status
RUNNING, COMPLETED or FAILED. -/
theorem c10_no_pending_write (wfId : String) (db : List (StepRecord α))
    (sig : Nat → Bool) (wf : List (String × Work α)) (st : EngineState α)
    (rec : StepRecord α)
    (hmem : rec ∈ (runSteps wfId db sig st wf).2.store) :
    rec ∈ st.store ∨ rec.status ≠ StepStatus.PENDING :=
  runSteps_store_status wfId db sig wf st rec hmem

/-- Claim C10 witness: the record committed by a fresh successful step is a
new row and its status is COMPLETED, not PENDING. -/
theorem c10_witness :
    { workflowId := "W", stepKey := "A_seq_1", id := "A", sequence := 1,
      status := StepStatus.COMPLETED, result := some (5 : Nat), error := none,
      timestamp := 8 } ∈ (initState ([] : List (StepRecord Nat)) 0).store ∨
    ({ workflowId := "W", stepKey := "A_seq_1", id := "A", sequence := 1,
       status := StepStatus.COMPLETED, result := some (5 : Nat), error := none,
       timestamp := 8 } : StepRecord Nat).status ≠ StepStatus.PENDING :=
  c10_no_pending_write "W" [] sigNever [("A", Work.ok 5)] (initState [] 0)
    { workflowId := "W", stepKey := "A_seq_1", id := "A", sequence := 1,
      status := StepStatus.COMPLETED, result := some 5, error := none, timestamp := 8 }
    (by decide)

end Revive
